import Mathlib

/-!
Verification development for the ZodMap driving-log visualiser.

The client (`src/frontend/src/App.tsx`) keeps a map from log identifier to an
aggregate record, an insertion-ordered list of identifiers, a selection set of
active identifiers, and a preview session guarded by a monotonic request
counter.  The definitions below are a shallow embedding of that code: React
`useState` values become fields of `AppState`, each event handler or effect
becomes a pure state-transition function, and the asynchronous fetch
completions become explicit transition functions taking the fetch result as an
argument (the browser event loop serialises all of these, so each transition
is atomic).  Object URLs handed out by `URL.createObjectURL` are modelled as
natural numbers; a call to `URL.revokeObjectURL` is recorded by consing the
handle onto the bookkeeping field `released`.  In-flight preview fetches are
recorded in the bookkeeping field `pending` as (captured counter, log id)
pairs.
-/

/-- Geographic sample of a trajectory (`TrajectoryPoint` in `types.ts`). -/
structure TrajectoryPoint where
  lat : ℚ
  lon : ℚ
deriving DecidableEq

/-- Bounding box of a trajectory (`BoundingBox` in `types.ts`). -/
structure BoundingBox where
  min_lat : ℚ
  min_lon : ℚ
  max_lat : ℚ
  max_lon : ℚ
deriving DecidableEq

/-- Catalog summary of a log (`DrivingLogListItem` in `types.ts`). -/
structure DrivingLogListItem where
  log_id : String
  num_points : Option Nat
  bounds : Option BoundingBox
deriving DecidableEq

/-- Full detail of a log (`DrivingLogDetail` in `types.ts`). -/
structure DrivingLogDetail where
  log_id : String
  num_points : Option Nat
  bounds : Option BoundingBox
  trajectory : List TrajectoryPoint
deriving DecidableEq

/-- Client-side aggregate record for one log (`LogState` in `App.tsx`). -/
structure LogState where
  summary : DrivingLogListItem
  detail : Option DrivingLogDetail
  loading : Bool
  error : Option String
deriving DecidableEq

/-- Preview session state (`PreviewState` in `App.tsx`); `imageUrl` is an
object-URL handle modelled as a natural number. -/
structure PreviewState where
  logId : String
  imageUrl : Option Nat
  loading : Bool
  error : Option String
deriving DecidableEq

/-- One page returned by the catalog endpoint (`DrivingLogListResponse`). -/
structure LogsResponse where
  items : List DrivingLogListItem
  total : Nat
  next_offset : Option Nat
deriving DecidableEq

/-- Lookup in an insertion-ordered association list, modelling
`Map.prototype.get` of the JavaScript `Map` used for `logState`. -/
def lookupA {α : Type} : List (String × α) → String → Option α
  | [], _ => none
  | (k', v) :: rest, k => if k' = k then some v else lookupA rest k

/-- Insert into an insertion-ordered association list, modelling
`Map.prototype.set`: replace in place when the key exists, append otherwise. -/
def insertA {α : Type} : List (String × α) → String → α → List (String × α)
  | [], k, v => [(k, v)]
  | (k', v') :: rest, k, v =>
      if k' = k then (k, v) :: rest else (k', v') :: insertA rest k v

theorem lookupA_insertA_self {α : Type} (m : List (String × α)) (k : String) (v : α) :
    lookupA (insertA m k v) k = some v := by
  induction m with
  | nil => simp [insertA, lookupA]
  | cons head rest ih =>
      obtain ⟨k', v'⟩ := head
      by_cases h : k' = k
      · simp [insertA, lookupA, h]
      · simp [insertA, lookupA, h, ih]

theorem lookupA_insertA_ne {α : Type} (m : List (String × α)) (k k' : String) (v : α)
    (h : k ≠ k') : lookupA (insertA m k v) k' = lookupA m k' := by
  induction m with
  | nil => simp [insertA, lookupA, h]
  | cons head rest ih =>
      obtain ⟨k0, v0⟩ := head
      by_cases h0 : k0 = k
      · subst h0
        simp [insertA, lookupA, h]
      · simp [insertA, lookupA, h0, ih]

/-- Minimum zoom at which trajectories render (`DISPLAY_ZOOM_THRESHOLD`). -/
def DISPLAY_ZOOM_THRESHOLD : ℚ := 14

/-- Initial map zoom (`DEFAULT_ZOOM`). -/
def DEFAULT_ZOOM : ℚ := 14

/-- Page size of the catalog listing (`LOGS_PAGE_SIZE`). -/
def LOGS_PAGE_SIZE : Nat := 50

/-- The whole client state of the `App` component: every `useState` value and
`useRef` cell, plus the two bookkeeping fields `pending` (preview fetches in
flight, as captured-counter / log-id pairs) and `released` (object-URL handles
passed to `URL.revokeObjectURL`). -/
structure AppState where
  logState : List (String × LogState)
  logOrder : List String
  activeLogs : List String
  error : Option String
  isLoadingSummaries : Bool
  isLoadingMore : Bool
  totalLogs : Option Nat
  nextOffset : Option Nat
  lastActivatedLog : Option String
  currentZoom : ℚ
  hoveredLogId : Option String
  isPreviewOpen : Bool
  previewState : Option PreviewState
  previewImageUrl : Option Nat
  previewRequestId : Nat
  pending : List (Nat × String)
  released : List Nat
deriving DecidableEq

/-- The state at mount, before the initial catalog load. -/
def initialApp : AppState :=
  { logState := []
    logOrder := []
    activeLogs := []
    error := none
    isLoadingSummaries := true
    isLoadingMore := false
    totalLogs := none
    nextOffset := some 0
    lastActivatedLog := none
    currentZoom := DEFAULT_ZOOM
    hoveredLogId := none
    isPreviewOpen := false
    previewState := none
    previewImageUrl := none
    previewRequestId := 0
    pending := []
    released := [] }

/-- The seen-set walk of `loadLogs`'s `setLogOrder` updater: identifiers of
`items` that are not in `seen`, in arrival order, each id emitted at most
once (`seen.add` happens as the walk goes). -/
def newIds (seen : List String) : List DrivingLogListItem → List String
  | [] => []
  | it :: rest =>
      if it.log_id ∈ seen then newIds seen rest
      else it.log_id :: newIds (it.log_id :: seen) rest

/-- The `setLogState` updater of `loadLogs`: fold the page's items into the
record map, refreshing the summary in place when a record exists and creating
a fresh non-loading record otherwise. -/
def mergeLogState : List (String × LogState) → List DrivingLogListItem → List (String × LogState)
  | base, [] => base
  | base, it :: rest =>
      let base' :=
        match lookupA base it.log_id with
        | some existing => insertA base it.log_id { existing with summary := it }
        | none =>
            insertA base it.log_id
              { summary := it, detail := none, loading := false, error := none }
      mergeLogState base' rest

/-- Successful branch of `loadLogs` (`App.tsx` lines 115-148): store total and
next offset, clear the page error, merge the page into the record map and the
ordered id list; `offset = 0` resets both the map and the order first. -/
def loadLogsSuccess (s : AppState) (offset : Nat) (resp : LogsResponse) : AppState :=
  let isInitial := offset = 0
  let baseState := if isInitial then [] else s.logState
  let baseOrder := if isInitial then [] else s.logOrder
  { s with
    totalLogs := some resp.total
    nextOffset := resp.next_offset
    error := none
    logState := mergeLogState baseState resp.items
    logOrder := baseOrder ++ newIds baseOrder resp.items }

/-- The whole of `loadLogs` (`App.tsx` lines 104-159) as one atomic
transition, with the fetch outcome passed in: the pre-fetch flag updates, the
try branch on success, the catch branch on failure, and the finally clause. -/
def loadLogs (s : AppState) (offset : Nat) (result : Except String LogsResponse) : AppState :=
  let isInitial := offset = 0
  let s0 :=
    if isInitial then { s with isLoadingSummaries := true, error := none }
    else { s with isLoadingMore := true }
  let s1 :=
    match result with
    | Except.ok resp => loadLogsSuccess s0 offset resp
    | Except.error msg => { s0 with error := some msg }
  if isInitial then { s1 with isLoadingSummaries := false }
  else { s1 with isLoadingMore := false }

/-- One iteration of the `activeLogs` detail-fetch effect (`App.tsx` lines
193-234) for one identifier, up to issuing the fetch: returns the updated
record map and whether a `fetchLogDetail` call was issued.  No entry, detail
already present, or `loading` already true all mean no fetch. -/
def startDetailFetch (m : List (String × LogState)) (logId : String) :
    List (String × LogState) × Bool :=
  match lookupA m logId with
  | none => (m, false)
  | some entry =>
      if entry.detail.isSome || entry.loading then (m, false)
      else (insertA m logId { entry with loading := true }, true)

/-- The `then` continuation of the detail fetch (`App.tsx` lines 204-215):
merge the detail into the identifier's record, clear `loading` and `error`;
a vanished record leaves the map unchanged. -/
def detailFetchSuccess (m : List (String × LogState)) (logId : String)
    (detail : DrivingLogDetail) : List (String × LogState) :=
  match lookupA m logId with
  | none => m
  | some st =>
      insertA m logId { st with detail := some detail, loading := false, error := none }

/-- The `catch` continuation of the detail fetch (`App.tsx` lines 216-231):
clear `loading`, store the failure description, keep `detail` as it was. -/
def detailFetchFailure (m : List (String × LogState)) (logId : String)
    (msg : String) : List (String × LogState) :=
  match lookupA m logId with
  | none => m
  | some st => insertA m logId { st with loading := false, error := some msg }

/-- The view computed by `FocusController` (`App.tsx` lines 51-75) once a
detail with a nonempty trajectory is at hand: the centre point and the target
zoom.  `computedZoom` stands for the external `map.getBoundsZoom` result and
`currentZoom` for `map.getZoom()`.  Returns `none` when the trajectory is
empty (the effect bails out). -/
def focusView (currentZoom computedZoom : ℚ) (detail : DrivingLogDetail) :
    Option (TrajectoryPoint × ℚ) :=
  match detail.trajectory with
  | [] => none
  | first :: _ =>
      match detail.bounds with
      | some _ => some (first, max computedZoom DISPLAY_ZOOM_THRESHOLD)
      | none => some (first, max currentZoom DISPLAY_ZOOM_THRESHOLD)

/-- `shouldRenderTrajectories` (`App.tsx` line 314). -/
def shouldRenderTrajectories (s : AppState) : Bool :=
  decide (DISPLAY_ZOOM_THRESHOLD ≤ s.currentZoom)

/-- The `polylineData` memo (`App.tsx` lines 243-261), reduced to the data the
claims speak about: for each active identifier whose record carries a detail
with a nonempty trajectory, one layer of (id, points). -/
def polylineData (s : AppState) : List (String × List TrajectoryPoint) :=
  s.activeLogs.filterMap fun logId =>
    match lookupA s.logState logId with
    | none => none
    | some entry =>
        match entry.detail with
        | none => none
        | some detail =>
            match detail.trajectory with
            | [] => none
            | _ :: _ => some (logId, detail.trajectory)

/-- The render guard (`App.tsx` line 353): below the zoom threshold no
trajectory layer is emitted at all. -/
def renderedTrajectories (s : AppState) : List (String × List TrajectoryPoint) :=
  if shouldRenderTrajectories s then polylineData s else []

/-- The hover-clearing effect (`App.tsx` lines 316-320): whenever the gate is
closed, `hoveredLogId` is reset to null. -/
def gateHover (s : AppState) : AppState :=
  if shouldRenderTrajectories s then s else { s with hoveredLogId := none }

/-- Release the object URL held in `previewImageUrlRef` (the
`URL.revokeObjectURL(previewImageUrlRef.current)` / null-out pattern). -/
def releaseHeld (s : AppState) : AppState :=
  match s.previewImageUrl with
  | some old => { s with released := old :: s.released, previewImageUrl := none }
  | none => s

/-- `handlePolylineClick` (`App.tsx` lines 263-269) up to issuing the image
fetch: remember the activation, open the preview panel, bump the request
counter, capture it as `myseq` (second component), put the session in loading
state, and record the in-flight fetch. -/
def handlePolylineClick (s : AppState) (logId : String) : AppState × Nat :=
  let newSeq := s.previewRequestId + 1
  ({ s with
      lastActivatedLog := some logId
      isPreviewOpen := true
      previewRequestId := newSeq
      previewState := some { logId := logId, imageUrl := none, loading := true, error := none }
      pending := (newSeq, logId) :: s.pending }, newSeq)

/-- The `then` continuation of the preview fetch (`App.tsx` lines 272-282):
a stale response (captured `myseq` differs from the counter) only revokes the
fresh object URL; a current response revokes the previously held URL, adopts
the new one, and commits the session. -/
def previewFetchSuccess (s : AppState) (myseq : Nat) (logId : String) (url : Nat) : AppState :=
  if s.previewRequestId ≠ myseq then
    { s with released := url :: s.released }
  else
    let s1 :=
      match s.previewImageUrl with
      | some old => { s with released := old :: s.released }
      | none => s
    { s1 with
      previewImageUrl := some url
      previewState := some { logId := logId, imageUrl := some url, loading := false, error := none } }

/-- The `catch` continuation of the preview fetch (`App.tsx` lines 283-297):
a stale failure changes nothing; a current failure releases the held URL and
commits the error into the session. -/
def previewFetchFailure (s : AppState) (myseq : Nat) (logId : String) (msg : String) : AppState :=
  if s.previewRequestId ≠ myseq then s
  else
    let s1 := releaseHeld s
    { s1 with
      previewState := some { logId := logId, imageUrl := none, loading := false, error := some msg } }

/-- `closePreview` (`App.tsx` lines 300-308): bump the counter, release the
held object URL, close the panel, clear the session. -/
def closePreview (s : AppState) : AppState :=
  let s1 := releaseHeld { s with previewRequestId := s.previewRequestId + 1 }
  { s1 with isPreviewOpen := false, previewState := none }

/-- The per-log checkbox `onChange` handler (`App.tsx` lines 490-520): update
the selection set, maintain `lastActivatedLog`, and on deactivation clear the
hover if it points at this log and close the preview if it previews this
log. -/
def toggleLog (s : AppState) (logId : String) (checked : Bool) : AppState :=
  let active' :=
    if checked then (if logId ∈ s.activeLogs then s.activeLogs else s.activeLogs ++ [logId])
    else s.activeLogs.filter fun x => x ≠ logId
  let s1 := { s with activeLogs := active' }
  let s2 :=
    if checked then { s1 with lastActivatedLog := some logId }
    else if s1.lastActivatedLog = some logId then { s1 with lastActivatedLog := none } else s1
  if checked then s2
  else
    let s3 := if s2.hoveredLogId = some logId then { s2 with hoveredLogId := none } else s2
    if s3.previewState.map PreviewState.logId = some logId then closePreview s3 else s3

/-- The select-all checkbox `onChange` handler (`App.tsx` lines 459-469):
checking activates every loaded id; unchecking empties the selection, forgets
the last activation and the hover, and closes the preview. -/
def toggleSelectAll (s : AppState) (checked : Bool) : AppState :=
  if checked then { s with activeLogs := s.logOrder }
  else
    closePreview
      { s with activeLogs := [], lastActivatedLog := none, hoveredLogId := none }

/-- The user interactions and asynchronous completions of the app, as events
of one serialised event loop. -/
inductive Op where
  | toggle (logId : String) (checked : Bool)
  | selectAll (checked : Bool)
  | click (logId : String)
  | completeOk (myseq : Nat) (logId : String) (url : Nat)
  | completeErr (myseq : Nat) (logId : String) (msg : String)
  | close
  | loadPage (offset : Nat) (result : Except String LogsResponse)
  | startDetail (logId : String)
  | detailOk (logId : String) (detail : DrivingLogDetail)
  | detailErr (logId : String) (msg : String)
  | zoomTo (z : ℚ)

/-- Apply one event to the app state, dispatching to the handler functions
above (each translated from `App.tsx`). -/
def step (s : AppState) : Op → AppState
  | Op.toggle logId checked => toggleLog s logId checked
  | Op.selectAll checked => toggleSelectAll s checked
  | Op.click logId => (handlePolylineClick s logId).1
  | Op.completeOk myseq logId url => previewFetchSuccess s myseq logId url
  | Op.completeErr myseq logId msg => previewFetchFailure s myseq logId msg
  | Op.close => closePreview s
  | Op.loadPage offset result => loadLogs s offset result
  | Op.startDetail logId => (startDetailFetch s.logState logId).1 |> fun m => { s with logState := m }
  | Op.detailOk logId detail => { s with logState := detailFetchSuccess s.logState logId detail }
  | Op.detailErr logId msg => { s with logState := detailFetchFailure s.logState logId msg }
  | Op.zoomTo z => gateHover { s with currentZoom := z }

/-- Which events the UI can actually deliver in a given state: a checkbox
exists only for listed ids, a polyline click only for rendered (hence active)
layers, a preview completion only for a fetch that was issued, and page loads
after mount carry a nonzero offset (the `offset = 0` load happens once, at
mount, from the `useEffect` with empty deps). -/
def validOp (s : AppState) : Op → Prop
  | Op.toggle logId _ => logId ∈ s.logOrder
  | Op.click logId => logId ∈ s.activeLogs
  | Op.completeOk myseq logId _ => (myseq, logId) ∈ s.pending
  | Op.completeErr myseq logId _ => (myseq, logId) ∈ s.pending
  | Op.loadPage offset _ => offset ≠ 0
  | _ => True

/-- The preview/selection coupling invariant: a live preview session previews
an active id; every issued preview fetch captured a counter value no larger
than the current one; a fetch whose captured value is still current belongs
to the current session; and active ids are listed ids. -/
def previewInv (s : AppState) : Prop :=
  (∀ ps, s.previewState = some ps → ps.logId ∈ s.activeLogs)
  ∧ (∀ p ∈ s.pending, p.1 ≤ s.previewRequestId)
  ∧ (∀ p ∈ s.pending, p.1 = s.previewRequestId →
      ∃ ps, s.previewState = some ps ∧ ps.logId = p.2)
  ∧ (∀ logId ∈ s.activeLogs, logId ∈ s.logOrder)

/-- Modelled from the spec: the backend Trajectory Cache (the FastAPI
`get_log_detail` endpoint in `src/api.py`) is not part of the files under
`src/`; only the README describes it.  Per spec section 4.2 it is a per-key
atomic get-or-compute table: an entry is either an in-flight computation with
its list of joined callers, or a completed result. -/
inductive CacheEntry where
  | inFlight (waiters : List Nat)
  | done (r : Except String DrivingLogDetail)

/-- Modelled from the spec: the cache table, an instrumentation counter of
underlying load/parse/bounding-box computations started, and the list of
(caller, result) deliveries. -/
structure CacheState where
  entries : List (String × CacheEntry)
  computations : Nat
  delivered : List (Nat × Except String DrivingLogDetail)

/-- The cold cache. -/
def emptyCache : CacheState :=
  { entries := [], computations := 0, delivered := [] }

/-- Modelled from the spec: one caller's `get_log_detail(key)` arrival under
the single-flight discipline of spec section 4.2 — atomically either start
the one computation, or join the in-flight one, or be served from the
memoized result. -/
def cacheRequest (c : CacheState) (caller : Nat) (key : String) : CacheState :=
  match lookupA c.entries key with
  | none =>
      { c with
        entries := insertA c.entries key (CacheEntry.inFlight [caller])
        computations := c.computations + 1 }
  | some (CacheEntry.inFlight ws) =>
      { c with entries := insertA c.entries key (CacheEntry.inFlight (caller :: ws)) }
  | some (CacheEntry.done r) => { c with delivered := (caller, r) :: c.delivered }

/-- Modelled from the spec: completion of the one computation for `key`
delivers the same result (or the same failure) to every joined caller and
memoizes it. -/
def cacheComplete (c : CacheState) (key : String)
    (r : Except String DrivingLogDetail) : CacheState :=
  match lookupA c.entries key with
  | some (CacheEntry.inFlight ws) =>
      { c with
        entries := insertA c.entries key (CacheEntry.done r)
        delivered := ws.map (fun w => (w, r)) ++ c.delivered }
  | _ => c

/-- A batch of concurrent arrivals for the same key, in an arbitrary
interleaving order (the order is the quantified list order). -/
def cacheRequestAll (c : CacheState) (callers : List Nat) (key : String) : CacheState :=
  callers.foldl (fun acc caller => cacheRequest acc caller key) c

theorem mem_newIds (x : String) :
    ∀ (items : List DrivingLogListItem) (seen : List String),
      x ∈ newIds seen items ↔ x ∈ items.map DrivingLogListItem.log_id ∧ x ∉ seen := by
  intro items
  induction items with
  | nil => intro seen; simp [newIds]
  | cons it rest ih =>
      intro seen
      by_cases h : it.log_id ∈ seen
      · rw [newIds]
        simp only [h, if_true, List.map_cons, List.mem_cons, ih seen]
        constructor
        · rintro ⟨hx, hns⟩
          exact ⟨Or.inr hx, hns⟩
        · rintro ⟨hor, hns⟩
          rcases hor with rfl | hx
          · exact absurd h hns
          · exact ⟨hx, hns⟩
      · rw [newIds]
        simp only [h, if_false, List.map_cons, List.mem_cons, ih (it.log_id :: seen)]
        constructor
        · rintro (rfl | ⟨hx, hns⟩)
          · exact ⟨Or.inl rfl, h⟩
          · exact ⟨Or.inr hx, fun hs => hns (Or.inr hs)⟩
        · rintro ⟨rfl | hx, hns⟩
          · exact Or.inl rfl
          · by_cases hxe : x = it.log_id
            · exact Or.inl hxe
            · exact Or.inr ⟨hx, fun hs => hs.elim hxe hns⟩

theorem newIds_nodup :
    ∀ (items : List DrivingLogListItem) (seen : List String), (newIds seen items).Nodup := by
  intro items
  induction items with
  | nil => intro seen; simp [newIds]
  | cons it rest ih =>
      intro seen
      by_cases h : it.log_id ∈ seen
      · rw [newIds]; simpa [h] using ih seen
      · rw [newIds]
        simp only [h, if_false]
        refine List.nodup_cons.mpr ⟨?_, ih _⟩
        intro hmem
        have := (mem_newIds _ rest _).mp hmem
        exact this.2 (List.mem_cons_self _ _)

theorem newIds_disjoint (items : List DrivingLogListItem) (seen : List String) :
    ∀ x ∈ newIds seen items, x ∉ seen := fun x hx =>
  ((mem_newIds x items seen).mp hx).2

theorem mergeLogState_lookup :
    ∀ (items : List DrivingLogListItem) (base : List (String × LogState))
      (logId : String) (r : LogState), lookupA base logId = some r →
      ∃ r', lookupA (mergeLogState base items) logId = some r'
        ∧ r'.detail = r.detail ∧ r'.loading = r.loading ∧ r'.error = r.error
        ∧ (logId ∉ items.map DrivingLogListItem.log_id → r' = r)
        ∧ (logId ∈ items.map DrivingLogListItem.log_id →
            ∃ it ∈ items, it.log_id = logId ∧ r'.summary = it) := by
  intro items
  induction items with
  | nil =>
      intro base logId r h
      exact ⟨r, by simpa [mergeLogState] using h, rfl, rfl, rfl, fun _ => rfl, by simp⟩
  | cons it rest ih =>
      intro base logId r h
      by_cases he : it.log_id = logId
      · subst he
        have hbase' :
            lookupA (insertA base it.log_id { r with summary := it }) it.log_id
              = some { r with summary := it } := lookupA_insertA_self _ _ _
        rw [mergeLogState]
        simp only [h]
        obtain ⟨r', hl, hd, hld, herr, hout, hin⟩ := ih _ it.log_id { r with summary := it } hbase'
        refine ⟨r', hl, hd, hld, herr, ?_, ?_⟩
        · intro hnot
          exact absurd (by simp) hnot
        · intro _
          by_cases hrest : it.log_id ∈ rest.map DrivingLogListItem.log_id
          · obtain ⟨it', hmem, hid, hsum⟩ := hin hrest
            exact ⟨it', List.mem_cons_of_mem _ hmem, hid, hsum⟩
          · refine ⟨it, List.mem_cons_self _ _, rfl, ?_⟩
            rw [hout hrest]
      · have hbase' :
            lookupA
              (match lookupA base it.log_id with
               | some existing => insertA base it.log_id { existing with summary := it }
               | none =>
                   insertA base it.log_id
                     { summary := it, detail := none, loading := false, error := none })
              logId = some r := by
          cases hx : lookupA base it.log_id with
          | none => simpa [lookupA_insertA_ne base it.log_id logId _ he] using h
          | some existing => simpa [lookupA_insertA_ne base it.log_id logId _ he] using h
        rw [mergeLogState]
        obtain ⟨r', hl, hd, hld, herr, hout, hin⟩ := ih _ logId r hbase'
        refine ⟨r', hl, hd, hld, herr, ?_, ?_⟩
        · intro hnot
          apply hout
          intro hc
          exact hnot (List.mem_cons_of_mem _ hc)
        · intro hmem
          have hmem' : logId ∈ rest.map DrivingLogListItem.log_id := by
            rcases List.mem_cons.mp hmem with h1 | h1
            · exact absurd h1.symm he
            · exact h1
          obtain ⟨it', hm, hid, hsum⟩ := hin hmem'
          exact ⟨it', List.mem_cons_of_mem _ hm, hid, hsum⟩

theorem mergeLogState_lookup_none :
    ∀ (items : List DrivingLogListItem) (base : List (String × LogState)) (logId : String),
      logId ∉ items.map DrivingLogListItem.log_id →
      lookupA (mergeLogState base items) logId = lookupA base logId := by
  intro items
  induction items with
  | nil => intro base logId _; simp [mergeLogState]
  | cons it rest ih =>
      intro base logId hnot
      have hne : it.log_id ≠ logId := by
        intro hc
        have hx : it.log_id ∈ (it :: rest).map DrivingLogListItem.log_id :=
          List.mem_cons_self _ _
        rw [hc] at hx
        exact hnot hx
      have hrest : logId ∉ rest.map DrivingLogListItem.log_id := fun hc =>
        hnot (List.mem_cons_of_mem _ hc)
      rw [mergeLogState]
      cases hx : lookupA base it.log_id with
      | none => rw [ih _ _ hrest, lookupA_insertA_ne _ _ _ _ hne]
      | some existing => rw [ih _ _ hrest, lookupA_insertA_ne _ _ _ _ hne]

@[simp]
theorem releaseHeld_previewState (s : AppState) :
    (releaseHeld s).previewState = s.previewState := by
  cases h : s.previewImageUrl <;> simp [releaseHeld, h]

@[simp]
theorem releaseHeld_activeLogs (s : AppState) :
    (releaseHeld s).activeLogs = s.activeLogs := by
  cases h : s.previewImageUrl <;> simp [releaseHeld, h]

@[simp]
theorem releaseHeld_logOrder (s : AppState) :
    (releaseHeld s).logOrder = s.logOrder := by
  cases h : s.previewImageUrl <;> simp [releaseHeld, h]

@[simp]
theorem releaseHeld_logState (s : AppState) :
    (releaseHeld s).logState = s.logState := by
  cases h : s.previewImageUrl <;> simp [releaseHeld, h]

@[simp]
theorem releaseHeld_pending (s : AppState) :
    (releaseHeld s).pending = s.pending := by
  cases h : s.previewImageUrl <;> simp [releaseHeld, h]

@[simp]
theorem releaseHeld_previewRequestId (s : AppState) :
    (releaseHeld s).previewRequestId = s.previewRequestId := by
  cases h : s.previewImageUrl <;> simp [releaseHeld, h]

@[simp]
theorem releaseHeld_isPreviewOpen (s : AppState) :
    (releaseHeld s).isPreviewOpen = s.isPreviewOpen := by
  cases h : s.previewImageUrl <;> simp [releaseHeld, h]

@[simp]
theorem releaseHeld_previewImageUrl (s : AppState) :
    (releaseHeld s).previewImageUrl = none := by
  cases h : s.previewImageUrl <;> simp [releaseHeld, h]

theorem releaseHeld_released (s : AppState) (u : Nat) (h : s.previewImageUrl = some u) :
    u ∈ (releaseHeld s).released := by
  simp [releaseHeld, h]

theorem releaseHeld_released_mono (s : AppState) (u : Nat) (h : u ∈ s.released) :
    u ∈ (releaseHeld s).released := by
  cases hx : s.previewImageUrl <;> simp [releaseHeld, hx, h]

@[simp]
theorem closePreview_previewState (s : AppState) :
    (closePreview s).previewState = none := rfl

@[simp]
theorem closePreview_previewImageUrl (s : AppState) :
    (closePreview s).previewImageUrl = none := by
  simp [closePreview]

@[simp]
theorem closePreview_isPreviewOpen (s : AppState) :
    (closePreview s).isPreviewOpen = false := rfl

@[simp]
theorem closePreview_activeLogs (s : AppState) :
    (closePreview s).activeLogs = s.activeLogs := by
  simp [closePreview]

@[simp]
theorem closePreview_logOrder (s : AppState) :
    (closePreview s).logOrder = s.logOrder := by
  simp [closePreview]

@[simp]
theorem closePreview_pending (s : AppState) :
    (closePreview s).pending = s.pending := by
  simp [closePreview]

@[simp]
theorem closePreview_previewRequestId (s : AppState) :
    (closePreview s).previewRequestId = s.previewRequestId + 1 := by
  simp [closePreview]

theorem closePreview_released (s : AppState) (u : Nat) (h : s.previewImageUrl = some u) :
    u ∈ (closePreview s).released := by
  simp only [closePreview]
  exact releaseHeld_released _ _ h

theorem loadLogs_preview_fields (s : AppState) (offset : Nat)
    (result : Except String LogsResponse) :
    (loadLogs s offset result).previewState = s.previewState
    ∧ (loadLogs s offset result).previewImageUrl = s.previewImageUrl
    ∧ (loadLogs s offset result).previewRequestId = s.previewRequestId
    ∧ (loadLogs s offset result).pending = s.pending
    ∧ (loadLogs s offset result).activeLogs = s.activeLogs := by
  by_cases h : offset = 0 <;> cases result <;>
    simp [loadLogs, loadLogsSuccess, h]

theorem loadLogs_logOrder_mono (s : AppState) (offset : Nat)
    (result : Except String LogsResponse) (hoff : offset ≠ 0) :
    ∀ logId ∈ s.logOrder, logId ∈ (loadLogs s offset result).logOrder := by
  intro logId hmem
  cases result with
  | ok resp =>
      simp only [loadLogs, loadLogsSuccess, hoff, if_false]
      exact List.mem_append_left _ hmem
  | error msg => simpa [loadLogs, hoff] using hmem

theorem cacheRequestAll_inFlight (key : String) :
    ∀ (callers : List Nat) (c : CacheState) (ws : List Nat),
      lookupA c.entries key = some (CacheEntry.inFlight ws) →
      ∃ ws',
        lookupA (cacheRequestAll c callers key).entries key
            = some (CacheEntry.inFlight ws')
        ∧ (∀ x ∈ callers, x ∈ ws') ∧ (∀ x ∈ ws, x ∈ ws')
        ∧ (cacheRequestAll c callers key).computations = c.computations
        ∧ (cacheRequestAll c callers key).delivered = c.delivered := by
  intro callers
  induction callers with
  | nil =>
      intro c ws h
      exact ⟨ws, h, by simp, fun x hx => hx, rfl, rfl⟩
  | cons caller rest ih =>
      intro c ws h
      have hstep :
          cacheRequest c caller key
            = { c with
                entries := insertA c.entries key (CacheEntry.inFlight (caller :: ws)) } := by
        simp [cacheRequest, h]
      have hlook :
          lookupA (cacheRequest c caller key).entries key
            = some (CacheEntry.inFlight (caller :: ws)) := by
        rw [hstep]
        exact lookupA_insertA_self _ _ _
      obtain ⟨ws', h1, h2, h3, h4, h5⟩ := ih (cacheRequest c caller key) (caller :: ws) hlook
      refine ⟨ws', ?_, ?_, ?_, ?_, ?_⟩
      · simpa [cacheRequestAll] using h1
      · intro x hx
        rcases List.mem_cons.mp hx with rfl | hx
        · exact h3 _ (List.mem_cons_self _ _)
        · exact h2 _ hx
      · intro x hx
        exact h3 _ (List.mem_cons_of_mem _ hx)
      · simp only [cacheRequestAll, List.foldl_cons] at h4 ⊢
        rw [h4, hstep]
      · simp only [cacheRequestAll, List.foldl_cons] at h5 ⊢
        rw [h5, hstep]

/-- Concrete log id used by the witnesses. -/
def idA : String := "A"

/-- Second concrete log id used by the witnesses. -/
def idB : String := "B"

/-- Concrete cache key used by the witnesses. -/
def keyX : String := "X"

/-- Concrete failure message used by the witnesses. -/
def msgFail : String := "fetch failed"

/-- Concrete detail payload used by the witnesses. -/
def sampleDetail : DrivingLogDetail :=
  { log_id := idA
    num_points := some 2
    bounds := some { min_lat := 1, min_lon := 2, max_lat := 3, max_lon := 4 }
    trajectory := [{ lat := 1, lon := 2 }, { lat := 3, lon := 4 }] }

/-- Concrete app state used by the witnesses: a committed preview of `idA`
holding object URL 9, with request counter 5. -/
def sampleApp : AppState :=
  { initialApp with
    logOrder := [idA, idB]
    logState :=
      [(idA, { summary := { log_id := idA, num_points := some 2, bounds := none }
               detail := none, loading := false, error := none }),
       (idB, { summary := { log_id := idB, num_points := none, bounds := none }
               detail := none, loading := false, error := none })]
    activeLogs := [idA]
    previewRequestId := 5
    previewImageUrl := some 9
    isPreviewOpen := true
    previewState := some { logId := idA, imageUrl := some 9, loading := false, error := none } }

/-- Claim C1: a preview-fetch completion whose captured sequence number
differs from the current counter changes no preview session state (session,
held URL, open flag, counter, record map all unchanged) and immediately
releases any image resource it carries; in the A-then-B race the committed
session reflects only B's outcome while A's URL is released and never
adopted. -/
theorem preview_stale_response_discarded (s : AppState) (myseq : Nat)
    (logId cA cB : String) (url urlA urlB : Nat) (msg : String)
    (hstale : s.previewRequestId ≠ myseq) :
    ((previewFetchSuccess s myseq logId url).previewState = s.previewState
      ∧ (previewFetchSuccess s myseq logId url).previewImageUrl = s.previewImageUrl
      ∧ (previewFetchSuccess s myseq logId url).isPreviewOpen = s.isPreviewOpen
      ∧ (previewFetchSuccess s myseq logId url).previewRequestId = s.previewRequestId
      ∧ (previewFetchSuccess s myseq logId url).logState = s.logState
      ∧ url ∈ (previewFetchSuccess s myseq logId url).released)
    ∧ previewFetchFailure s myseq logId msg = s
    ∧ ((previewFetchSuccess
          (previewFetchSuccess (handlePolylineClick (handlePolylineClick s cA).1 cB).1
            (handlePolylineClick s cA).2 cA urlA)
          (handlePolylineClick (handlePolylineClick s cA).1 cB).2 cB urlB).previewState
          = some { logId := cB, imageUrl := some urlB, loading := false, error := none }
      ∧ (previewFetchSuccess
          (previewFetchSuccess (handlePolylineClick (handlePolylineClick s cA).1 cB).1
            (handlePolylineClick s cA).2 cA urlA)
          (handlePolylineClick (handlePolylineClick s cA).1 cB).2 cB urlB).previewImageUrl
          = some urlB
      ∧ urlA ∈ (previewFetchSuccess
          (previewFetchSuccess (handlePolylineClick (handlePolylineClick s cA).1 cB).1
            (handlePolylineClick s cA).2 cA urlA)
          (handlePolylineClick (handlePolylineClick s cA).1 cB).2 cB urlB).released) := by
  refine ⟨?_, ?_, ?_⟩
  · simp [previewFetchSuccess, hstale]
  · simp [previewFetchFailure, hstale]
  · have h1 : s.previewRequestId + 1 + 1 ≠ s.previewRequestId + 1 := by omega
    cases hImg : s.previewImageUrl with
    | none => simp [handlePolylineClick, previewFetchSuccess, h1, hImg]
    | some old => simp [handlePolylineClick, previewFetchSuccess, h1, hImg]

/-- Witness for C1 at a concrete state: counter is 5, completion captured 3. -/
theorem preview_stale_response_discarded_witness :
    sampleApp.previewRequestId ≠ 3
    ∧ (previewFetchSuccess sampleApp 3 idA 7).previewState = sampleApp.previewState
    ∧ previewFetchFailure sampleApp 3 idA msgFail = sampleApp :=
  ⟨by decide,
   (preview_stale_response_discarded sampleApp 3 idA idA idB 7 7 8 msgFail (by decide)).1.1,
   (preview_stale_response_discarded sampleApp 3 idA idA idB 7 7 8 msgFail (by decide)).2.1⟩

/-- Claim C6: `closePreview` increments the sequence counter, releases the
held image resource, and clears the session to empty; a preview fetch issued
before the close (its captured number is at most the pre-close counter) that
completes afterwards changes no session state and its resource is released. -/
theorem close_preview_invalidates (s : AppState) (myseq : Nat) (logId : String)
    (url : Nat) (msg : String) (hold : myseq ≤ s.previewRequestId) :
    (closePreview s).previewRequestId = s.previewRequestId + 1
    ∧ (closePreview s).previewState = none
    ∧ (closePreview s).previewImageUrl = none
    ∧ (closePreview s).isPreviewOpen = false
    ∧ (∀ u, s.previewImageUrl = some u → u ∈ (closePreview s).released)
    ∧ (previewFetchSuccess (closePreview s) myseq logId url).previewState = none
    ∧ (previewFetchSuccess (closePreview s) myseq logId url).previewImageUrl = none
    ∧ (previewFetchSuccess (closePreview s) myseq logId url).isPreviewOpen = false
    ∧ url ∈ (previewFetchSuccess (closePreview s) myseq logId url).released
    ∧ previewFetchFailure (closePreview s) myseq logId msg = closePreview s := by
  have hne : s.previewRequestId + 1 ≠ myseq := by omega
  refine ⟨by simp, by simp, by simp, by simp, ?_, ?_, ?_, ?_, ?_, ?_⟩
  · intro u hu
    exact closePreview_released s u hu
  · simp [previewFetchSuccess, hne]
  · simp [previewFetchSuccess, hne]
  · simp [previewFetchSuccess, hne]
  · simp [previewFetchSuccess, hne]
  · simp [previewFetchFailure, hne]

/-- Witness for C6 at a concrete state: counter 5, fetch captured 2. -/
theorem close_preview_invalidates_witness :
    (2 : Nat) ≤ sampleApp.previewRequestId
    ∧ (closePreview sampleApp).previewState = none
    ∧ (previewFetchSuccess (closePreview sampleApp) 2 idA 7).previewState = none :=
  ⟨by decide,
   (close_preview_invalidates sampleApp 2 idA 7 msgFail (by decide)).2.1,
   (close_preview_invalidates sampleApp 2 idA 7 msgFail (by decide)).2.2.2.2.2.1⟩

/-- Claim C2 (spec-modelled: the FastAPI backend holding `get_log_detail` and
its trajectory cache is not among the sources; the cache here is modelled
from spec section 4.2): for any nonempty batch of concurrent requests for
one uncached key, in any arrival order, exactly one underlying computation
executes and every caller is delivered the same result or failure. -/
theorem trajectory_cache_single_flight (callers : List Nat) (key : String)
    (r : Except String DrivingLogDetail) (hne : callers ≠ []) :
    (cacheComplete (cacheRequestAll emptyCache callers key) key r).computations = 1
    ∧ ∀ caller ∈ callers,
        (caller, r) ∈ (cacheComplete (cacheRequestAll emptyCache callers key) key r).delivered := by
  cases callers with
  | nil => exact absurd rfl hne
  | cons caller rest =>
      have hfirst :
          cacheRequest emptyCache caller key
            = { entries := [(key, CacheEntry.inFlight [caller])]
                computations := 1
                delivered := [] } := by
        simp [cacheRequest, emptyCache, lookupA, insertA]
      have hlook :
          lookupA (cacheRequest emptyCache caller key).entries key
            = some (CacheEntry.inFlight [caller]) := by
        rw [hfirst]
        simp [lookupA]
      obtain ⟨ws', h1, h2, h3, h4, h5⟩ :=
        cacheRequestAll_inFlight key rest (cacheRequest emptyCache caller key) [caller] hlook
      have hall :
          cacheRequestAll emptyCache (caller :: rest) key
            = cacheRequestAll (cacheRequest emptyCache caller key) rest key := by
        simp [cacheRequestAll]
      rw [hall]
      constructor
      · simp only [cacheComplete, h1]
        rw [h4, hfirst]
      · intro x hx
        simp only [cacheComplete, h1]
        have hxw : x ∈ ws' := by
          rcases List.mem_cons.mp hx with rfl | hx'
          · exact h3 _ (List.mem_cons_self _ _)
          · exact h2 _ hx'
        exact List.mem_append_left _ (List.mem_map.mpr ⟨x, hxw, rfl⟩)

/-- Witness for C2: three concurrent callers, one computation. -/
theorem trajectory_cache_single_flight_witness :
    ([1, 2, 3] : List Nat) ≠ []
    ∧ (cacheComplete (cacheRequestAll emptyCache [1, 2, 3] keyX) keyX
        (Except.ok sampleDetail)).computations = 1 :=
  ⟨by decide,
   (trajectory_cache_single_flight [1, 2, 3] keyX (Except.ok sampleDetail) (by decide)).1⟩

/-- Claim C3: an `offset = 0` page resets the merged list and record map and
rebuilds them from that page alone (the result is independent of the prior
state, and an id is listed iff the page carries it); an `offset > 0` page
appends only identifiers not already present, in first-seen arrival order;
an already-present identifier keeps its position and multiplicity and only
has its summary refreshed in place (detail, loading and error untouched);
and the merged list never contains a duplicate identifier. -/
theorem pagination_merge_dedup (s t : AppState) (offset : Nat) (resp : LogsResponse)
    (hnd : s.logOrder.Nodup) :
    ((loadLogsSuccess s 0 resp).logOrder = (loadLogsSuccess t 0 resp).logOrder
      ∧ (loadLogsSuccess s 0 resp).logState = (loadLogsSuccess t 0 resp).logState
      ∧ ∀ logId, logId ∈ (loadLogsSuccess s 0 resp).logOrder
          ↔ logId ∈ resp.items.map DrivingLogListItem.log_id)
    ∧ (offset ≠ 0 →
        (loadLogsSuccess s offset resp).logOrder
            = s.logOrder ++ newIds s.logOrder resp.items
          ∧ ∀ logId ∈ newIds s.logOrder resp.items, logId ∉ s.logOrder)
    ∧ (offset ≠ 0 → ∀ logId ∈ s.logOrder,
        (loadLogsSuccess s offset resp).logOrder.count logId = s.logOrder.count logId)
    ∧ (offset ≠ 0 → ∀ logId r, lookupA s.logState logId = some r →
        ∃ r', lookupA (loadLogsSuccess s offset resp).logState logId = some r'
          ∧ r'.detail = r.detail ∧ r'.loading = r.loading ∧ r'.error = r.error
          ∧ (logId ∉ resp.items.map DrivingLogListItem.log_id → r' = r)
          ∧ (logId ∈ resp.items.map DrivingLogListItem.log_id →
              ∃ it ∈ resp.items, it.log_id = logId ∧ r'.summary = it))
    ∧ (loadLogsSuccess s offset resp).logOrder.Nodup := by
  refine ⟨⟨by simp [loadLogsSuccess], by simp [loadLogsSuccess], ?_⟩, ?_, ?_, ?_, ?_⟩
  · intro logId
    simp only [loadLogsSuccess, if_pos rfl, List.nil_append]
    simpa using mem_newIds logId resp.items []
  · intro hoff
    refine ⟨by simp [loadLogsSuccess, hoff], ?_⟩
    exact newIds_disjoint resp.items s.logOrder
  · intro hoff logId hmem
    simp only [loadLogsSuccess, hoff, if_false]
    rw [List.count_append]
    have hz : (newIds s.logOrder resp.items).count logId = 0 :=
      List.count_eq_zero.mpr fun hc => (newIds_disjoint resp.items s.logOrder logId hc) hmem
    omega
  · intro hoff logId r hr
    simp only [loadLogsSuccess, hoff, if_false]
    exact mergeLogState_lookup resp.items s.logState logId r hr
  · by_cases hoff : offset = 0
    · simp only [loadLogsSuccess, hoff, if_pos rfl, List.nil_append]
      exact newIds_nodup resp.items []
    · simp only [loadLogsSuccess, hoff, if_false]
      refine List.Nodup.append hnd (newIds_nodup resp.items s.logOrder) ?_
      intro a ha hb
      exact newIds_disjoint resp.items s.logOrder a hb ha

/-- Witness for C3 at a concrete page of two items merged twice. -/
theorem pagination_merge_dedup_witness :
    sampleApp.logOrder.Nodup
    ∧ (loadLogsSuccess sampleApp 2
        { items := [{ log_id := idA, num_points := some 7, bounds := none },
                    { log_id := keyX, num_points := none, bounds := none }]
          total := 3
          next_offset := none }).logOrder.Nodup :=
  ⟨by decide,
   (pagination_merge_dedup sampleApp initialApp 2
      { items := [{ log_id := idA, num_points := some 7, bounds := none },
                  { log_id := keyX, num_points := none, bounds := none }]
        total := 3
        next_offset := none } (by decide)).2.2.2.2⟩

/-- Claim C7: a failed page load, initial or not, leaves the record map, the
merged order, the selection, the total and the next-page cursor exactly as
they were, and only surfaces the error message. -/
theorem page_load_failure_scoped (s : AppState) (offset : Nat) (msg : String) :
    (loadLogs s offset (Except.error msg)).logState = s.logState
    ∧ (loadLogs s offset (Except.error msg)).logOrder = s.logOrder
    ∧ (loadLogs s offset (Except.error msg)).activeLogs = s.activeLogs
    ∧ (loadLogs s offset (Except.error msg)).totalLogs = s.totalLogs
    ∧ (loadLogs s offset (Except.error msg)).nextOffset = s.nextOffset
    ∧ (loadLogs s offset (Except.error msg)).error = some msg := by
  by_cases h : offset = 0 <;> simp [loadLogs, h]

/-- Claim C4: activating an identifier whose record already carries a detail,
or is already loading, issues no fetch; a fetchable record issues one; and
two back-to-back activations of the same identifier issue at most one fetch
overall (the second always sees `loading` and is a no-op), so at most one
detail fetch per identifier is ever in flight. -/
theorem detail_fetch_dedup (m : List (String × LogState)) (logId : String)
    (entry : LogState) (hentry : lookupA m logId = some entry) :
    (entry.detail.isSome = true ∨ entry.loading = true → startDetailFetch m logId = (m, false))
    ∧ (entry.detail = none → entry.loading = false → (startDetailFetch m logId).2 = true)
    ∧ (startDetailFetch (startDetailFetch m logId).1 logId).2 = false := by
  refine ⟨?_, ?_, ?_⟩
  · intro h
    rcases h with h | h
    · simp [startDetailFetch, hentry, h]
    · simp [startDetailFetch, hentry, h]
  · intro hd hl
    simp [startDetailFetch, hentry, hd, hl]
  · by_cases hd : entry.detail.isSome = true
    · simp [startDetailFetch, hentry, hd]
    · by_cases hl : entry.loading = true
      · simp [startDetailFetch, hentry, hl]
      · have hstep :
            (startDetailFetch m logId).1 = insertA m logId { entry with loading := true } := by
          simp [startDetailFetch, hentry, hd, hl]
        rw [hstep]
        simp [startDetailFetch, lookupA_insertA_self]

/-- Witness for C4 at the concrete sample state: a second activation of
`idA` right after the first issues no fetch. -/
theorem detail_fetch_dedup_witness :
    lookupA sampleApp.logState idA
        = some { summary := { log_id := idA, num_points := some 2, bounds := none }
                 detail := none, loading := false, error := none }
    ∧ (startDetailFetch (startDetailFetch sampleApp.logState idA).1 idA).2 = false :=
  ⟨by decide,
   (detail_fetch_dedup sampleApp.logState idA
      { summary := { log_id := idA, num_points := some 2, bounds := none }
        detail := none, loading := false, error := none } (by decide)).2.2⟩

/-- Claim C5: a successful detail completion merges the detail into that
identifier's record with `loading` and `error` cleared; a failed one clears
`loading`, stores the failure message, and leaves `detail` as it was (still
unset when it was unset); in both cases every other identifier's record is
untouched. -/
theorem detail_completion_scoped (m : List (String × LogState)) (logId other : String)
    (st : LogState) (d : DrivingLogDetail) (msg : String)
    (hst : lookupA m logId = some st) (hother : other ≠ logId) :
    lookupA (detailFetchSuccess m logId d) logId
        = some { st with detail := some d, loading := false, error := none }
    ∧ lookupA (detailFetchSuccess m logId d) other = lookupA m other
    ∧ lookupA (detailFetchFailure m logId msg) logId
        = some { st with loading := false, error := some msg }
    ∧ (st.detail = none →
        ∃ r, lookupA (detailFetchFailure m logId msg) logId = some r ∧ r.detail = none)
    ∧ lookupA (detailFetchFailure m logId msg) other = lookupA m other := by
  refine ⟨?_, ?_, ?_, ?_, ?_⟩
  · simp [detailFetchSuccess, hst, lookupA_insertA_self]
  · simp only [detailFetchSuccess, hst]
    exact lookupA_insertA_ne _ _ _ _ fun h => hother h.symm
  · simp [detailFetchFailure, hst, lookupA_insertA_self]
  · intro hd
    refine ⟨{ st with loading := false, error := some msg }, ?_, ?_⟩
    · simp [detailFetchFailure, hst, lookupA_insertA_self]
    · simpa using hd
  · simp only [detailFetchFailure, hst]
    exact lookupA_insertA_ne _ _ _ _ fun h => hother h.symm

/-- Witness for C5 at the concrete sample state: completing `idA`'s fetch
leaves `idB`'s record untouched. -/
theorem detail_completion_scoped_witness :
    lookupA sampleApp.logState idA
        = some { summary := { log_id := idA, num_points := some 2, bounds := none }
                 detail := none, loading := false, error := none }
    ∧ idB ≠ idA
    ∧ lookupA (detailFetchSuccess sampleApp.logState idA sampleDetail) idB
        = lookupA sampleApp.logState idB :=
  ⟨by decide, by decide,
   (detail_completion_scoped sampleApp.logState idA idB
      { summary := { log_id := idA, num_points := some 2, bounds := none }
        detail := none, loading := false, error := none }
      sampleDetail msgFail (by decide) (by decide)).2.1⟩

/-- Claim C8: with a bounding box available, focus-on-activation targets zoom
`max computedZoom threshold`, which is at least the threshold; without one,
it keeps the current zoom floored at the threshold; in both cases the view
centres on the trajectory's first point. -/
theorem focus_zoom_floor (currentZoom computedZoom : ℚ) (detail : DrivingLogDetail)
    (first : TrajectoryPoint) (rest : List TrajectoryPoint)
    (htraj : detail.trajectory = first :: rest) :
    (∀ bb, detail.bounds = some bb →
        focusView currentZoom computedZoom detail
            = some (first, max computedZoom DISPLAY_ZOOM_THRESHOLD)
          ∧ DISPLAY_ZOOM_THRESHOLD ≤ max computedZoom DISPLAY_ZOOM_THRESHOLD)
    ∧ (detail.bounds = none →
        focusView currentZoom computedZoom detail
            = some (first, max currentZoom DISPLAY_ZOOM_THRESHOLD)
          ∧ DISPLAY_ZOOM_THRESHOLD ≤ max currentZoom DISPLAY_ZOOM_THRESHOLD) := by
  constructor
  · intro bb hbb
    exact ⟨by simp [focusView, htraj, hbb], le_max_right _ _⟩
  · intro hbb
    exact ⟨by simp [focusView, htraj, hbb], le_max_right _ _⟩

/-- Witness for C8 at the concrete sample detail (which has bounds). -/
theorem focus_zoom_floor_witness :
    sampleDetail.trajectory
        = { lat := 1, lon := 2 } :: [{ lat := 3, lon := 4 }]
    ∧ sampleDetail.bounds = some { min_lat := 1, min_lon := 2, max_lat := 3, max_lon := 4 }
    ∧ (focusView 10 11 sampleDetail
          = some ({ lat := 1, lon := 2 }, max 11 DISPLAY_ZOOM_THRESHOLD)
        ∧ DISPLAY_ZOOM_THRESHOLD ≤ max 11 DISPLAY_ZOOM_THRESHOLD) :=
  ⟨by decide, by decide,
   (focus_zoom_floor 10 11 sampleDetail { lat := 1, lon := 2 } [{ lat := 3, lon := 4 }]
      (by decide)).1
     { min_lat := 1, min_lon := 2, max_lat := 3, max_lon := 4 } (by decide)⟩

/-- Claim C9: below the zoom threshold nothing is rendered — the guard is
closed, the emitted trajectory layer list is empty whatever the selection
holds, and the hover-clearing effect leaves the hovered identifier at none. -/
theorem render_gating_below_threshold (s : AppState)
    (hz : s.currentZoom < DISPLAY_ZOOM_THRESHOLD) :
    shouldRenderTrajectories s = false
    ∧ renderedTrajectories s = []
    ∧ (gateHover s).hoveredLogId = none := by
  have hb : shouldRenderTrajectories s = false := by
    simp [shouldRenderTrajectories, not_le.mpr hz]
  exact ⟨hb, by simp [renderedTrajectories, hb], by simp [gateHover, hb]⟩

theorem toggleLog_true_eq (s : AppState) (logId : String) :
    toggleLog s logId true
      = { s with
          activeLogs :=
            if logId ∈ s.activeLogs then s.activeLogs else s.activeLogs ++ [logId]
          lastActivatedLog := some logId } := by
  by_cases hmem : logId ∈ s.activeLogs <;> simp [toggleLog, hmem]

theorem toggleLog_false_eq (s : AppState) (logId : String) :
    toggleLog s logId false
      = (if s.previewState.map PreviewState.logId = some logId
         then
           closePreview
             { s with
               activeLogs := s.activeLogs.filter fun x => x ≠ logId
               lastActivatedLog :=
                 if s.lastActivatedLog = some logId then none else s.lastActivatedLog
               hoveredLogId :=
                 if s.hoveredLogId = some logId then none else s.hoveredLogId }
         else
           { s with
             activeLogs := s.activeLogs.filter fun x => x ≠ logId
             lastActivatedLog :=
               if s.lastActivatedLog = some logId then none else s.lastActivatedLog
             hoveredLogId :=
               if s.hoveredLogId = some logId then none else s.hoveredLogId }) := by
  by_cases hl : s.lastActivatedLog = some logId <;>
    by_cases hh : s.hoveredLogId = some logId <;>
      simp [toggleLog, hl, hh]

/-- The sample state zoomed out to level 10 with a hover active. -/
def zoomedOutApp : AppState :=
  { sampleApp with currentZoom := 10, hoveredLogId := some idA }

/-- Witness for C9 at a concrete state zoomed out to 10 with an active log. -/
theorem render_gating_below_threshold_witness :
    zoomedOutApp.currentZoom < DISPLAY_ZOOM_THRESHOLD
    ∧ renderedTrajectories zoomedOutApp = []
    ∧ (gateHover zoomedOutApp).hoveredLogId = none :=
  ⟨by norm_num [zoomedOutApp, sampleApp, initialApp, DISPLAY_ZOOM_THRESHOLD],
   (render_gating_below_threshold zoomedOutApp
      (by norm_num [zoomedOutApp, sampleApp, initialApp, DISPLAY_ZOOM_THRESHOLD])).2.1,
   (render_gating_below_threshold zoomedOutApp
      (by norm_num [zoomedOutApp, sampleApp, initialApp, DISPLAY_ZOOM_THRESHOLD])).2.2⟩

/-- Claim C10: a live preview session always previews a member of the
selection set; deactivating the previewed identifier — by its own checkbox
or by deselect-all — closes the preview, releases the held image resource
and clears the session; and every UI-deliverable event preserves the
invariant. -/
theorem preview_session_selection_invariant (s : AppState) (op : Op)
    (hI : previewInv s) (hv : validOp s op) :
    previewInv (step s op)
    ∧ (∀ ps, s.previewState = some ps → op = Op.toggle ps.logId false →
        (step s op).previewState = none
          ∧ ∀ u, s.previewImageUrl = some u → u ∈ (step s op).released)
    ∧ (op = Op.selectAll false →
        (step s op).previewState = none
          ∧ ∀ u, s.previewImageUrl = some u → u ∈ (step s op).released) := by
  obtain ⟨h1, h2, h3, h4⟩ := hI
  cases op with
  | toggle logId checked =>
      cases checked with
      | true =>
          refine ⟨?_, ?_, ?_⟩
          · rw [show step s (Op.toggle logId true) = toggleLog s logId true from rfl,
              toggleLog_true_eq]
            refine ⟨?_, ?_, ?_, ?_⟩
            · intro ps hps
              simp only at hps ⊢
              by_cases hmem : logId ∈ s.activeLogs
              · simpa [hmem] using h1 ps hps
              · simp only [hmem, if_false]
                exact List.mem_append_left _ (h1 ps hps)
            · intro p hp
              exact h2 p hp
            · intro p hp hq
              exact h3 p hp hq
            · intro x hx
              simp only at hx
              by_cases hmem : logId ∈ s.activeLogs
              · rw [if_pos hmem] at hx
                exact h4 x hx
              · rw [if_neg hmem] at hx
                rcases List.mem_append.mp hx with hx' | hx'
                · exact h4 x hx'
                · rcases List.mem_singleton.mp hx' with rfl
                  exact hv
          · intro ps hps heq
            simp at heq
          · intro heq
            simp at heq
      | false =>
          refine ⟨?_, ?_, ?_⟩
          · rw [show step s (Op.toggle logId false) = toggleLog s logId false from rfl,
              toggleLog_false_eq]
            by_cases hps : s.previewState.map PreviewState.logId = some logId
            · rw [if_pos hps]
              refine ⟨?_, ?_, ?_, ?_⟩
              · intro ps hps'
                simp at hps'
              · intro p hp
                simp only [closePreview_pending, closePreview_previewRequestId] at hp ⊢
                have := h2 p hp
                omega
              · intro p hp hq
                simp only [closePreview_pending, closePreview_previewRequestId] at hp hq
                have := h2 p hp
                omega
              · intro x hx
                simp only [closePreview_activeLogs, closePreview_logOrder] at hx ⊢
                have hx' := List.mem_filter.mp hx
                exact h4 x hx'.1
            · rw [if_neg hps]
              refine ⟨?_, ?_, ?_, ?_⟩
              · intro ps hps'
                simp only at hps' ⊢
                have hmem := h1 ps hps'
                have hne : ps.logId ≠ logId := by
                  intro hc
                  apply hps
                  rw [hps']
                  simp [hc]
                refine List.mem_filter.mpr ⟨hmem, ?_⟩
                simpa using hne
              · intro p hp
                exact h2 p hp
              · intro p hp hq
                exact h3 p hp hq
              · intro x hx
                simp only at hx
                exact h4 x (List.mem_filter.mp hx).1
          · intro ps hps heq
            have hinj := Op.toggle.inj heq
            obtain ⟨rfl, -⟩ := hinj
            have hmap : s.previewState.map PreviewState.logId = some ps.logId := by
              rw [hps]
              rfl
            rw [show step s (Op.toggle ps.logId false) = toggleLog s ps.logId false from rfl,
              toggleLog_false_eq, if_pos hmap]
            refine ⟨by simp, ?_⟩
            intro u hu
            exact closePreview_released _ u (by simpa using hu)
          · intro heq
            simp at heq
  | selectAll checked =>
      cases checked with
      | true =>
          refine ⟨⟨?_, ?_, ?_, ?_⟩, ?_, ?_⟩
          · intro ps hps
            simp only [step, toggleSelectAll, if_pos rfl] at hps ⊢
            exact h4 ps.logId (h1 ps hps)
          · intro p hp
            exact h2 p hp
          · intro p hp hq
            exact h3 p hp hq
          · intro x hx
            simpa [step, toggleSelectAll] using hx
          · intro ps hps heq
            simp at heq
          · intro heq
            simp at heq
      | false =>
          refine ⟨⟨?_, ?_, ?_, ?_⟩, ?_, ?_⟩
          · intro ps hps
            simp [step, toggleSelectAll] at hps
          · intro p hp
            simp only [step, toggleSelectAll, if_neg Bool.false_ne_true,
              closePreview_pending, closePreview_previewRequestId] at hp ⊢
            have := h2 p hp
            omega
          · intro p hp hq
            simp only [step, toggleSelectAll, if_neg Bool.false_ne_true,
              closePreview_pending, closePreview_previewRequestId] at hp hq
            have := h2 p hp
            omega
          · intro x hx
            simp [step, toggleSelectAll] at hx
          · intro ps hps heq
            simp at heq
          · intro heq
            refine ⟨by simp [step, toggleSelectAll], ?_⟩
            intro u hu
            simp only [step, toggleSelectAll, if_neg Bool.false_ne_true]
            exact closePreview_released _ u (by simpa using hu)
  | click logId =>
      refine ⟨⟨?_, ?_, ?_, ?_⟩, ?_, ?_⟩
      · intro ps hps
        simp only [step, handlePolylineClick, Option.some.injEq] at hps ⊢
        rw [← hps]
        exact hv
      · intro p hp
        simp only [step, handlePolylineClick, List.mem_cons] at hp ⊢
        rcases hp with rfl | hp
        · exact le_refl _
        · have := h2 p hp
          omega
      · intro p hp hq
        simp only [step, handlePolylineClick, List.mem_cons] at hp hq ⊢
        rcases hp with rfl | hp
        · exact ⟨_, rfl, rfl⟩
        · have := h2 p hp
          omega
      · intro x hx
        exact h4 x hx
      · intro ps hps heq
        simp at heq
      · intro heq
        simp at heq
  | completeOk myseq logId url =>
      by_cases hfresh : s.previewRequestId = myseq
      · obtain ⟨ps0, hps0, hid0⟩ := h3 (myseq, logId) hv hfresh.symm
        have hid0' : ps0.logId = logId := hid0
        have hsplit :
            (step s (Op.completeOk myseq logId url)).previewState
                = some { logId := logId, imageUrl := some url, loading := false, error := none }
            ∧ (step s (Op.completeOk myseq logId url)).pending = s.pending
            ∧ (step s (Op.completeOk myseq logId url)).previewRequestId = s.previewRequestId
            ∧ (step s (Op.completeOk myseq logId url)).activeLogs = s.activeLogs
            ∧ (step s (Op.completeOk myseq logId url)).logOrder = s.logOrder := by
          cases hImg : s.previewImageUrl <;>
            simp [step, previewFetchSuccess, hfresh, hImg]
        obtain ⟨e1, e2, e3, e4, e5⟩ := hsplit
        refine ⟨⟨?_, ?_, ?_, ?_⟩, ?_, ?_⟩
        · intro ps hps
          rw [e1] at hps
          rw [e4]
          obtain rfl := Option.some.inj hps
          show logId ∈ s.activeLogs
          rw [← hid0']
          exact h1 ps0 hps0
        · intro p hp
          rw [e2] at hp
          rw [e3]
          exact h2 p hp
        · intro p hp hq
          rw [e2] at hp
          rw [e3] at hq
          rw [e1]
          obtain ⟨ps2, hps2, hid2⟩ := h3 p hp hq
          refine ⟨_, rfl, ?_⟩
          show logId = p.2
          rw [← hid0']
          rw [hps0] at hps2
          rw [Option.some.inj hps2]
          exact hid2
        · intro x hx
          rw [e4] at hx
          rw [e5]
          exact h4 x hx
        · intro ps hps heq
          simp at heq
        · intro heq
          simp at heq
      · have hfresh' : s.previewRequestId ≠ myseq := hfresh
        refine ⟨⟨?_, ?_, ?_, ?_⟩, ?_, ?_⟩
        · intro ps hps
          simp only [step, previewFetchSuccess, if_pos hfresh'] at hps ⊢
          exact h1 ps hps
        · intro p hp
          simp only [step, previewFetchSuccess, if_pos hfresh'] at hp ⊢
          exact h2 p hp
        · intro p hp hq
          simp only [step, previewFetchSuccess, if_pos hfresh'] at hp hq ⊢
          exact h3 p hp hq
        · intro x hx
          simp only [step, previewFetchSuccess, if_pos hfresh'] at hx ⊢
          exact h4 x hx
        · intro ps hps heq
          simp at heq
        · intro heq
          simp at heq
  | completeErr myseq logId msg =>
      by_cases hfresh : s.previewRequestId = myseq
      · obtain ⟨ps0, hps0, hid0⟩ := h3 (myseq, logId) hv hfresh.symm
        have hid0' : ps0.logId = logId := hid0
        have hsplit :
            (step s (Op.completeErr myseq logId msg)).previewState
                = some { logId := logId, imageUrl := none, loading := false, error := some msg }
            ∧ (step s (Op.completeErr myseq logId msg)).pending = s.pending
            ∧ (step s (Op.completeErr myseq logId msg)).previewRequestId = s.previewRequestId
            ∧ (step s (Op.completeErr myseq logId msg)).activeLogs = s.activeLogs
            ∧ (step s (Op.completeErr myseq logId msg)).logOrder = s.logOrder := by
          simp [step, previewFetchFailure, hfresh]
        obtain ⟨e1, e2, e3, e4, e5⟩ := hsplit
        refine ⟨⟨?_, ?_, ?_, ?_⟩, ?_, ?_⟩
        · intro ps hps
          rw [e1] at hps
          rw [e4]
          obtain rfl := Option.some.inj hps
          show logId ∈ s.activeLogs
          rw [← hid0']
          exact h1 ps0 hps0
        · intro p hp
          rw [e2] at hp
          rw [e3]
          exact h2 p hp
        · intro p hp hq
          rw [e2] at hp
          rw [e3] at hq
          rw [e1]
          obtain ⟨ps2, hps2, hid2⟩ := h3 p hp hq
          refine ⟨_, rfl, ?_⟩
          show logId = p.2
          rw [← hid0']
          rw [hps0] at hps2
          rw [Option.some.inj hps2]
          exact hid2
        · intro x hx
          rw [e4] at hx
          rw [e5]
          exact h4 x hx
        · intro ps hps heq
          simp at heq
        · intro heq
          simp at heq
      · have hfresh' : s.previewRequestId ≠ myseq := hfresh
        refine ⟨⟨?_, ?_, ?_, ?_⟩, ?_, ?_⟩
        · intro ps hps
          simp only [step, previewFetchFailure, if_pos hfresh'] at hps ⊢
          exact h1 ps hps
        · intro p hp
          simp only [step, previewFetchFailure, if_pos hfresh'] at hp ⊢
          exact h2 p hp
        · intro p hp hq
          simp only [step, previewFetchFailure, if_pos hfresh'] at hp hq ⊢
          exact h3 p hp hq
        · intro x hx
          simp only [step, previewFetchFailure, if_pos hfresh'] at hx ⊢
          exact h4 x hx
        · intro ps hps heq
          simp at heq
        · intro heq
          simp at heq
  | close =>
      refine ⟨⟨?_, ?_, ?_, ?_⟩, ?_, ?_⟩
      · intro ps hps
        simp [step] at hps
      · intro p hp
        simp only [step, closePreview_pending, closePreview_previewRequestId] at hp ⊢
        have := h2 p hp
        omega
      · intro p hp hq
        simp only [step, closePreview_pending, closePreview_previewRequestId] at hp hq
        have := h2 p hp
        omega
      · intro x hx
        simp only [step, closePreview_activeLogs, closePreview_logOrder] at hx ⊢
        exact h4 x hx
      · intro ps hps heq
        simp at heq
      · intro heq
        simp at heq
  | loadPage offset result =>
      obtain ⟨e1, e2, e3, e4, e5⟩ := loadLogs_preview_fields s offset result
      refine ⟨⟨?_, ?_, ?_, ?_⟩, ?_, ?_⟩
      · intro ps hps
        rw [show step s (Op.loadPage offset result) = loadLogs s offset result from rfl] at hps ⊢
        rw [e1] at hps
        rw [e5]
        exact h1 ps hps
      · intro p hp
        rw [show step s (Op.loadPage offset result) = loadLogs s offset result from rfl] at hp ⊢
        rw [e4] at hp
        rw [e3]
        exact h2 p hp
      · intro p hp hq
        rw [show step s (Op.loadPage offset result) = loadLogs s offset result from rfl]
          at hp hq ⊢
        rw [e4] at hp
        rw [e3] at hq
        rw [e1]
        exact h3 p hp hq
      · intro x hx
        rw [show step s (Op.loadPage offset result) = loadLogs s offset result from rfl]
          at hx ⊢
        rw [e5] at hx
        exact loadLogs_logOrder_mono s offset result hv x (h4 x hx)
      · intro ps hps heq
        simp at heq
      · intro heq
        simp at heq
  | startDetail logId =>
      exact ⟨⟨h1, h2, h3, h4⟩, fun ps hps heq => by simp at heq, fun heq => by simp at heq⟩
  | detailOk logId detail =>
      exact ⟨⟨h1, h2, h3, h4⟩, fun ps hps heq => by simp at heq, fun heq => by simp at heq⟩
  | detailErr logId msg =>
      exact ⟨⟨h1, h2, h3, h4⟩, fun ps hps heq => by simp at heq, fun heq => by simp at heq⟩
  | zoomTo z =>
      cases hsr : shouldRenderTrajectories { s with currentZoom := z } with
      | true =>
          refine ⟨?_, fun ps hps heq => by simp at heq, fun heq => by simp at heq⟩
          rw [show step s (Op.zoomTo z) = gateHover { s with currentZoom := z } from rfl]
          rw [gateHover, if_pos hsr]
          exact ⟨h1, h2, h3, h4⟩
      | false =>
          refine ⟨?_, fun ps hps heq => by simp at heq, fun heq => by simp at heq⟩
          rw [show step s (Op.zoomTo z) = gateHover { s with currentZoom := z } from rfl]
          rw [gateHover, if_neg (by simp [hsr])]
          exact ⟨h1, h2, h3, h4⟩

/-- Witness for C10: closing the preview from the concrete sample state
preserves the invariant. -/
theorem preview_session_selection_invariant_witness :
    previewInv sampleApp ∧ previewInv (step sampleApp Op.close) := by
  have hinv : previewInv sampleApp := by
    refine ⟨?_, ?_, ?_, ?_⟩
    · intro ps hps
      simp only [sampleApp, initialApp, Option.some.injEq] at hps
      rw [← hps]
      simp [sampleApp, initialApp]
    · intro p hp
      simp [sampleApp, initialApp] at hp
    · intro p hp
      simp [sampleApp, initialApp] at hp
    · intro x hx
      simp only [sampleApp, initialApp] at hx ⊢
      simp at hx
      simp [hx]
  exact ⟨hinv,
    (preview_session_selection_invariant sampleApp Op.close hinv trivial).1⟩


